import Mathlib

/-!
Verification of the policy-rag retrieval core against its specification.

The development shallowly embeds the retrieval pipeline of the repository:

* `rag/app/retriever.py` — `Reranker.rerank` and
  `PolicyRetriever.retrieve_context` (hybrid retrieval with dedup and
  reranking),
* `rag/app/core/vector_store_manager.py` — `VectorStoreManager`
  (`_cleanup_directory`, `_clear_existing_collection`,
  `load_or_create_vector_store`),
* `rag/app/core/document_loader.py` — `DocumentProcessor.chunk_documents`
  (the splitter itself is external library code and is modelled from the
  spec),
* `rag/app/main.py` — the `chunk_ids` extraction of `generate_answer`.

External effectful collaborators (Chroma similarity search, BM25, the
cross-encoder, the filesystem) are passed in as explicit parameters or
encoded as explicit state, mirroring the control flow of the Python source.
-/

namespace PolicyRag

/-- A metadata value: the Python code stores strings (source names) and
floats (rerank scores) in the same metadata dict.  Scores are modelled as
integers; only their ordering matters to the verified properties. -/
inductive MetaVal : Type where
  | str : String → MetaVal
  | num : Int → MetaVal
deriving DecidableEq, Repr

/-- Assignment `m[k] = v` on an insertion-ordered dict (CPython dict
semantics): if the key is present its value is overwritten in place,
otherwise the pair is appended. -/
def dictSet {α : Type} (m : List (String × α)) (k : String) (v : α) :
    List (String × α) :=
  if m.any (fun p => p.1 = k) then
    m.map (fun p => if p.1 = k then (k, v) else p)
  else
    m ++ [(k, v)]

/-- Lookup `m.get(k)` on an insertion-ordered dict: value of the first
(hence unique, for dicts built by `dictSet`) entry with key `k`. -/
def dictFind {α : Type} (m : List (String × α)) (k : String) : Option α :=
  (m.find? (fun p => p.1 = k)).map Prod.snd

/-- A langchain `Document`: page content plus a metadata dict. -/
structure Document : Type where
  page_content : String
  metadata : List (String × MetaVal)
deriving DecidableEq, Repr

/-- The dict built by Python's `{key(x): x for x in xs}` comprehension:
fold dict assignment over the list in order. -/
def pyDictOfList {α : Type} (key : α → String) (xs : List α) :
    List (String × α) :=
  xs.foldl (fun m x => dictSet m (key x) x) []

/-- Step 3 of `PolicyRetriever.retrieve_context`
(`rag/app/retriever.py`, line 107):
`unique_docs = list(\x7bdoc.page_content: doc for doc in combined_docs\x7d.values())`. -/
def dedupByContent (docs : List Document) : List Document :=
  (pyDictOfList (fun d => d.page_content) docs).map Prod.snd

/-! ### Dict lemmas -/

theorem dictFind_dictSet {α : Type} (m : List (String × α)) (k : String)
    (v : α) (s : String) :
    dictFind (dictSet m k v) s = if s = k then some v else dictFind m s := by
  unfold dictSet dictFind
  by_cases hany : m.any (fun p => p.1 = k) = true
  · rw [if_pos hany, List.find?_map]
    have hcomp :
        ((fun p : String × α => decide (p.1 = s)) ∘
          (fun p : String × α => if p.1 = k then (k, v) else p)) =
        (fun p : String × α => decide (p.1 = s)) := by
      funext p
      simp only [Function.comp]
      by_cases hpk : p.1 = k <;> simp [hpk]
    rw [hcomp]
    by_cases hsk : s = k
    · subst hsk
      have hs : (m.find? (fun p => decide (p.1 = s))).isSome = true := by
        rw [List.find?_isSome]
        rcases List.any_eq_true.mp hany with ⟨p, hp, hps⟩
        exact ⟨p, hp, hps⟩
      rcases Option.isSome_iff_exists.mp hs with ⟨p, hp⟩
      have hp1 : p.1 = s := by simpa using List.find?_some hp
      rw [hp]
      simp [hp1]
    · cases hf : m.find? (fun p => decide (p.1 = s)) with
      | none => simp [hf, hsk]
      | some p =>
        have hp1 : p.1 = s := by simpa using List.find?_some hf
        have hpk : ¬p.1 = k := by rw [hp1]; exact hsk
        simp [hf, hsk, hpk]
  · rw [if_neg hany, List.find?_append]
    cases hf : m.find? (fun p => decide (p.1 = s)) with
    | some p =>
      have hmem := List.mem_of_find?_eq_some hf
      have hp1 : p.1 = s := by simpa using List.find?_some hf
      have hsk : ¬s = k := by
        intro h
        subst h
        exact hany (List.any_eq_true.mpr ⟨p, hmem, by simp [hp1]⟩)
      simp [hf, hsk, Option.or]
    | none =>
      by_cases hsk : s = k
      · subst hsk
        simp [hf, List.find?, Option.or]
      · have hks : ¬k = s := fun h => hsk h.symm
        simp [hf, List.find?, Option.or, hsk, hks]

theorem map_fst_dictSet {α : Type} (m : List (String × α)) (k : String)
    (v : α) :
    (dictSet m k v).map Prod.fst =
      if m.any (fun p => p.1 = k) then m.map Prod.fst
      else m.map Prod.fst ++ [k] := by
  unfold dictSet
  by_cases hany : m.any (fun p => p.1 = k) = true
  · rw [if_pos hany, if_pos hany, List.map_map]
    congr 1
    funext p
    by_cases hpk : p.1 = k <;> simp [hpk]
  · rw [if_neg hany, if_neg hany]
    simp

/-- Invariant of the dicts built by `pyDictOfList key`: every stored value
is stored under its own key, and keys are pairwise distinct. -/
def DictInv {α : Type} (key : α → String) (m : List (String × α)) : Prop :=
  (∀ p ∈ m, key p.2 = p.1) ∧ (m.map Prod.fst).Nodup

theorem dictInv_dictSet {α : Type} (key : α → String)
    (m : List (String × α)) (v : α) (h : DictInv key m) :
    DictInv key (dictSet m (key v) v) := by
  obtain ⟨hval, hnd⟩ := h
  constructor
  · intro p hp
    unfold dictSet at hp
    by_cases hany : m.any (fun q => q.1 = key v) = true
    · rw [if_pos hany] at hp
      rcases List.mem_map.mp hp with ⟨q, hq, hqp⟩
      by_cases hqk : q.1 = key v
      · rw [if_pos hqk] at hqp
        subst hqp
        rfl
      · rw [if_neg hqk] at hqp
        subst hqp
        exact hval q hq
    · rw [if_neg hany] at hp
      rcases List.mem_append.mp hp with hp | hp
      · exact hval p hp
      · rcases List.mem_singleton.mp hp with rfl
        rfl
  · rw [map_fst_dictSet]
    by_cases hany : m.any (fun q => q.1 = key v) = true
    · rw [if_pos hany]
      exact hnd
    · rw [if_neg hany]
      have hk : key v ∉ m.map Prod.fst := by
        intro hk
        rcases List.mem_map.mp hk with ⟨q, hq, hq1⟩
        exact hany (List.any_eq_true.mpr ⟨q, hq, by simp [hq1]⟩)
      rw [List.nodup_append]
      exact ⟨hnd, List.nodup_singleton _, by
        simpa [List.disjoint_singleton] using hk⟩

theorem dictInv_foldl {α : Type} (key : α → String) :
    ∀ (xs : List α) (m : List (String × α)), DictInv key m →
      DictInv key (xs.foldl (fun m x => dictSet m (key x) x) m) := by
  intro xs
  induction xs with
  | nil => intro m h; exact h
  | cons x t ih =>
    intro m h
    exact ih (dictSet m (key x) x) (dictInv_dictSet key m x h)

theorem dictInv_pyDictOfList {α : Type} (key : α → String) (xs : List α) :
    DictInv key (pyDictOfList key xs) := by
  refine dictInv_foldl key xs [] ?_
  unfold DictInv
  exact ⟨fun p hp => absurd hp (List.not_mem_nil p), List.nodup_nil⟩

theorem dictFind_foldl {α : Type} (key : α → String) :
    ∀ (xs : List α) (m : List (String × α)) (s : String),
      dictFind (xs.foldl (fun m x => dictSet m (key x) x) m) s =
        ((xs.filter (fun x => key x = s)).getLast?).or (dictFind m s) := by
  intro xs
  induction xs with
  | nil => intro m s; simp
  | cons x t ih =>
    intro m s
    rw [List.foldl_cons, ih, dictFind_dictSet]
    by_cases hx : key x = s
    · have hsx : s = key x := hx.symm
      rw [if_pos hsx]
      have hfil : (x :: t).filter (fun y => decide (key y = s)) =
          x :: t.filter (fun y => decide (key y = s)) := by
        simp [List.filter_cons, hx]
      rw [hfil]
      cases hft : t.filter (fun y => decide (key y = s)) with
      | nil => simp
      | cons y ys =>
        rw [List.getLast?_cons_cons]
        cases hlast : (y :: ys).getLast? with
        | none => simp at hlast
        | some z => simp [hlast]
    · have hsx : ¬s = key x := fun h => hx h.symm
      rw [if_neg hsx]
      have hfil : (x :: t).filter (fun y => decide (key y = s)) =
          t.filter (fun y => decide (key y = s)) := by
        simp [List.filter_cons, hx]
      rw [hfil]

theorem filter_map_snd {α : Type} (key : α → String) :
    ∀ (m : List (String × α)), DictInv key m → ∀ s : String,
      (m.map Prod.snd).filter (fun x => key x = s) = (dictFind m s).toList := by
  intro m
  induction m with
  | nil => intro _ s; simp [dictFind]
  | cons p t ih =>
    intro h s
    obtain ⟨hval, hnd⟩ := h
    obtain ⟨k, v⟩ := p
    have hkv : key v = k := hval (k, v) (by simp)
    have hnd2 : (k :: t.map Prod.fst).Nodup := hnd
    have hknot : k ∉ t.map Prod.fst := (List.nodup_cons.mp hnd2).1
    have hinv : DictInv key t :=
      ⟨fun q hq => hval q (List.mem_cons_of_mem _ hq),
        (List.nodup_cons.mp hnd2).2⟩
    by_cases hks : k = s
    · subst hks
      have hfnone : t.find? (fun q => decide (q.1 = k)) = none := by
        rw [List.find?_eq_none]
        intro q hq hq1
        exact hknot (List.mem_map.mpr ⟨q, hq, by simpa using hq1⟩)
      have hrest : (t.map Prod.snd).filter (fun x => decide (key x = k)) = [] := by
        rw [ih hinv k]
        simp [dictFind, hfnone]
      simp only [List.map_cons, List.filter_cons]
      rw [hrest]
      simp [dictFind, List.find?, hkv]
    · have hkvs : ¬key v = s := by rw [hkv]; exact hks
      simp only [List.map_cons, List.filter_cons]
      rw [ih hinv s]
      simp [dictFind, List.find?, hkvs, hks]

/-- The deduplicated list contains, for each content string present in the
input, exactly one document: the LAST document with that content in the
combined candidate order. -/
theorem dedupByContent_filter (docs : List Document) (s : String) :
    (dedupByContent docs).filter (fun d => d.page_content = s) =
      ((docs.filter (fun d => d.page_content = s)).getLast?).toList := by
  have h1 := filter_map_snd (fun d : Document => d.page_content)
    (pyDictOfList (fun d => d.page_content) docs)
    (dictInv_pyDictOfList (fun d => d.page_content) docs) s
  have h2 := dictFind_foldl (fun d : Document => d.page_content) docs [] s
  unfold pyDictOfList at h1 h2
  unfold dedupByContent pyDictOfList
  rw [h1, h2]
  simp [dictFind]

/-! ### Reranker (`rag/app/retriever.py`, lines 30–39) -/

/-- Rendering of a metadata value in an f-string interpolation. -/
def MetaVal.text : MetaVal → String
  | .str s => s
  | .num z => toString z

/-- `doc.metadata.get("source_name", "N/A")`. -/
def sourceNameOf (d : Document) : MetaVal :=
  (dictFind d.metadata "source_name").getD (MetaVal.str "N/A")

/-- The in-place score assignment loop of `Reranker.rerank` (lines 35–38):
`scores = self.model.predict(pairs)` followed by
`for doc, score in zip(documents, scores): doc.metadata["rerank_score"] = float(score)`.
The cross-encoder is the capability `scorer`, returning one score per
(query, content) pair; the mutation of the caller's list is modelled by
returning the updated documents. -/
def assignScores (scorer : String → String → Int) (query : String)
    (documents : List Document) : List Document :=
  documents.map (fun d =>
    { d with metadata := dictSet d.metadata "rerank_score" (MetaVal.num (scorer query d.page_content)) })

/-- `x.metadata["rerank_score"]` as read by the sort key (line 39). -/
def rerankScoreOf (d : Document) : Int :=
  match dictFind d.metadata "rerank_score" with
  | some (MetaVal.num z) => z
  | _ => 0

/-- The descending comparison realised by
`sorted(..., key=lambda x: x.metadata["rerank_score"], reverse=True)`. -/
def scoreGe (a b : Document) : Prop :=
  rerankScoreOf b ≤ rerankScoreOf a

instance : DecidableRel scoreGe :=
  fun a b => inferInstanceAs (Decidable (rerankScoreOf b ≤ rerankScoreOf a))

instance : IsTotal Document scoreGe :=
  ⟨fun a b => le_total (rerankScoreOf b) (rerankScoreOf a)⟩

instance : IsTrans Document scoreGe :=
  ⟨fun _ _ _ hab hbc => le_trans hbc hab⟩

/-- `Reranker.rerank` (lines 34–39).  The first component is the value the
Python method returns (documents sorted by descending rerank score,
truncated to `top_n`); the second component is the post-call state of the
caller's `documents` list, whose elements were mutated in place by the
score-assignment loop.  Python's `sorted` is a stable sort, as is
`List.insertionSort`. -/
def rerank (scorer : String → String → Int) (query : String)
    (documents : List Document) (top_n : Nat) :
    List Document × List Document :=
  let mutated := assignScores scorer query documents
  ((mutated.insertionSort scoreGe).take top_n, mutated)

/-! ### PolicyRetriever.retrieve_context (`rag/app/retriever.py`, lines 59–128) -/

/-- The exception hierarchy of `rag/app/retriever.py`, lines 10–24. -/
inductive RetrievalError : Type where
  | vectorSearchError : String → RetrievalError
  | keywordSearchError : String → RetrievalError
  | rerankError : String → RetrievalError
deriving DecidableEq, Repr

/-- One block of the `context` string (lines 118–121). -/
def contextBlock (d : Document) : String :=
  "Source: " ++ (sourceNameOf d).text ++ "\nContent: " ++ d.page_content

/-- One element of `serialized_chunks` (lines 123–126): a dict with exactly
the keys "text" and "source". -/
def serializeChunk (d : Document) : List (String × MetaVal) :=
  [("text", MetaVal.str d.page_content), ("source", sourceNameOf d)]

/-- `PolicyRetriever.retrieve_context` (lines 59–128).  The external stages
are passed as `Except`-valued capabilities: `vectorSearch` is
`self.vector_store.similarity_search`, `bm25Search` is the BM25 retriever
built from `all_docs`, and `rerankStep` is `self.reranker.rerank`; a raised
Python exception is an `Except.error`.  Each stage's failure is re-raised
under its distinct error kind, exactly as the three try/except blocks do. -/
def retrieve_context
    (vectorSearch : String → Nat → Except String (List Document))
    (bm25Search : List Document → String → Nat → Except String (List Document))
    (rerankStep : String → List Document → Nat → Except String (List Document))
    (query : String) (all_docs : List Document)
    (initial_k : Nat) (final_k : Nat) :
    Except RetrievalError (String × List (List (String × MetaVal))) :=
  match vectorSearch query initial_k with
  | .error e => .error (.vectorSearchError e)
  | .ok vector_docs =>
    match bm25Search all_docs query initial_k with
    | .error e => .error (.keywordSearchError e)
    | .ok keyword_docs =>
      let combined_docs := vector_docs ++ keyword_docs
      let unique_docs := dedupByContent combined_docs
      match rerankStep query unique_docs final_k with
      | .error e => .error (.rerankError e)
      | .ok reranked_docs =>
        .ok (String.intercalate "\n\n" (reranked_docs.map contextBlock),
          reranked_docs.map serializeChunk)

/-- `chunk["text"]` of a serialized chunk. -/
def textOf (ch : List (String × MetaVal)) : String :=
  match dictFind ch "text" with
  | some (MetaVal.str s) => s
  | _ => ""

/-- The `chunk_ids` extraction of `main.generate_answer`
(`rag/app/main.py`, line 98): `chunk_ids = [chunk["id"] for chunk in chunks]`.
Subscripting a dict without the key raises `KeyError`, modelled as
`Except.error`. -/
def extract_chunk_ids (chunks : List (List (String × MetaVal))) :
    Except String (List MetaVal) :=
  chunks.mapM (fun ch =>
    match dictFind ch "id" with
    | some v => Except.ok v
    | none => Except.error "KeyError: id")

theorem textOf_serializeChunk (d : Document) :
    textOf (serializeChunk d) = d.page_content := rfl

theorem dictFind_serializeChunk_id (d : Document) :
    dictFind (serializeChunk d) "id" = none := rfl

theorem map_fst_serializeChunk (d : Document) :
    (serializeChunk d).map Prod.fst = ["text", "source"] := rfl

/-! ### Claim C1 — dedup keeps exactly one entry per content -/

/-- C1 counterexample: with two candidates of identical content (the first
from vector search, the second from lexical search) but different metadata,
the dedup step keeps the entry with the metadata of the LAST occurrence in
the combined order, not of the first occurrence as the claim states. -/
theorem dedup_keeps_first_metadata_counterexample :
    dedupByContent
        ([⟨"x", [("source_name", MetaVal.str "a")]⟩] ++
          [⟨"x", [("source_name", MetaVal.str "b")]⟩]) =
      [⟨"x", [("source_name", MetaVal.str "b")]⟩] ∧
    (Document.mk "x" [("source_name", MetaVal.str "b")]).metadata ≠
      (Document.mk "x" [("source_name", MetaVal.str "a")]).metadata := by
  constructor
  · rfl
  · decide

/-- C1 (amended): for every query, when the vector-search and BM25
candidates contain two or more chunks with identical content strings, the
deduplication step of `PolicyRetriever.retrieve_context` yields exactly one
entry for that content, and the kept entry is the LAST occurrence in the
combined candidate order (vector results followed by lexical results), so
it carries the metadata of the last occurrence. -/
theorem dedup_yields_unique_last_occurrence
    (vector_docs keyword_docs : List Document) (s : String)
    (h : s ∈ (vector_docs ++ keyword_docs).map (fun d => d.page_content)) :
    ((dedupByContent (vector_docs ++ keyword_docs)).filter
        (fun d => d.page_content = s)).length = 1 ∧
    (dedupByContent (vector_docs ++ keyword_docs)).filter
        (fun d => d.page_content = s) =
      (((vector_docs ++ keyword_docs).filter
          (fun d => d.page_content = s)).getLast?).toList := by
  have h2 := dedupByContent_filter (vector_docs ++ keyword_docs) s
  refine ⟨?_, h2⟩
  rw [h2]
  rcases List.mem_map.mp h with ⟨d, hd, hds⟩
  have hmem : d ∈ (vector_docs ++ keyword_docs).filter
      (fun d => d.page_content = s) :=
    List.mem_filter.mpr ⟨hd, by simp [hds]⟩
  cases hf : (vector_docs ++ keyword_docs).filter
      (fun d => d.page_content = s) with
  | nil => rw [hf] at hmem; cases hmem
  | cons y ys =>
    cases hl : (y :: ys).getLast? with
    | none => simp at hl
    | some z => simp [hl]

/-- C1 witness: the amended statement at a concrete input with a duplicated
content string. -/
theorem dedup_yields_unique_last_occurrence_witness :
    ((dedupByContent
        ([⟨"x", [("source_name", MetaVal.str "a")]⟩] ++
          [⟨"x", [("source_name", MetaVal.str "b")]⟩])).filter
        (fun d => d.page_content = "x")).length = 1 ∧
    (dedupByContent
        ([⟨"x", [("source_name", MetaVal.str "a")]⟩] ++
          [⟨"x", [("source_name", MetaVal.str "b")]⟩])).filter
        (fun d => d.page_content = "x") =
      (((([⟨"x", [("source_name", MetaVal.str "a")]⟩] : List Document) ++
          ([⟨"x", [("source_name", MetaVal.str "b")]⟩] : List Document)).filter
          (fun d : Document => d.page_content = "x")).getLast?).toList :=
  dedup_yields_unique_last_occurrence
    [⟨"x", [("source_name", MetaVal.str "a")]⟩]
    [⟨"x", [("source_name", MetaVal.str "b")]⟩] "x" (by decide)

/-! ### Claim C4 — distinct error kinds per failing stage -/

/-- C4: `retrieve_context` raises a distinct error kind per failing stage —
a vector-search failure raises `VectorSearchError`, a lexical-search
failure raises `KeywordSearchError`, a rerank failure raises `RerankError`
— and a failure in any stage aborts the whole call with no result. -/
theorem retrieve_context_error_kinds
    (vs : String → Nat → Except String (List Document))
    (bm : List Document → String → Nat → Except String (List Document))
    (rr : String → List Document → Nat → Except String (List Document))
    (q : String) (ad : List Document) (ik fk : Nat) :
    (∀ e, vs q ik = .error e →
      retrieve_context vs bm rr q ad ik fk =
        .error (.vectorSearchError e)) ∧
    (∀ e vdocs, vs q ik = .ok vdocs → bm ad q ik = .error e →
      retrieve_context vs bm rr q ad ik fk =
        .error (.keywordSearchError e)) ∧
    (∀ e vdocs kdocs, vs q ik = .ok vdocs → bm ad q ik = .ok kdocs →
      rr q (dedupByContent (vdocs ++ kdocs)) fk = .error e →
      retrieve_context vs bm rr q ad ik fk = .error (.rerankError e)) ∧
    (∀ err r, retrieve_context vs bm rr q ad ik fk = .error err →
      retrieve_context vs bm rr q ad ik fk ≠ .ok r) := by
  refine ⟨?_, ?_, ?_, ?_⟩
  · intro e h
    simp [retrieve_context, h]
  · intro e vdocs h1 h2
    simp [retrieve_context, h1, h2]
  · intro e vdocs kdocs h1 h2 h3
    simp [retrieve_context, h1, h2, h3]
  · intro err r h hc
    rw [h] at hc
    cases hc

/-- C4 witness: each stage failure at a concrete input produces its
distinct error kind. -/
theorem retrieve_context_error_kinds_witness :
    (retrieve_context (fun _ _ => .error "boom") (fun _ _ _ => .ok [])
        (fun _ _ _ => .ok []) "q" [] 1 1 =
      .error (.vectorSearchError "boom")) ∧
    (retrieve_context (fun _ _ => .ok []) (fun _ _ _ => .error "boom2")
        (fun _ _ _ => .ok []) "q" [] 1 1 =
      .error (.keywordSearchError "boom2")) ∧
    (retrieve_context (fun _ _ => .ok []) (fun _ _ _ => .ok [])
        (fun _ _ _ => .error "boom3") "q" [] 1 1 =
      .error (.rerankError "boom3")) :=
  ⟨(retrieve_context_error_kinds _ _ _ _ _ _ _).1 "boom" rfl,
   (retrieve_context_error_kinds _ _ _ _ _ _ _).2.1 "boom2" [] rfl rfl,
   (retrieve_context_error_kinds _ _ _ _ _ _ _).2.2.1 "boom3" [] [] rfl rfl
     rfl⟩

/-! ### Claim C5 — output sorted by descending rerank score, at most final_k -/

theorem mem_of_mem_rerank_fst (scorer : String → String → Int) (q : String)
    (docs : List Document) (n : Nat) (d : Document)
    (h : d ∈ (rerank scorer q docs n).1) :
    d ∈ assignScores scorer q docs := by
  unfold rerank at h
  have h2 : d ∈ (assignScores scorer q docs).insertionSort scoreGe :=
    List.mem_of_mem_take h
  exact (List.perm_insertionSort scoreGe (assignScores scorer q docs)).mem_iff.mp h2

theorem rerankScoreOf_assignScores (scorer : String → String → Int)
    (q : String) (docs : List Document) (d : Document)
    (h : d ∈ assignScores scorer q docs) :
    rerankScoreOf d = scorer q d.page_content := by
  unfold assignScores at h
  rcases List.mem_map.mp h with ⟨d0, _, hd0⟩
  subst hd0
  unfold rerankScoreOf
  rw [dictFind_dictSet]
  simp

/-- C5: for every successful `retrieve_context` call (with the repository's
own `Reranker` plugged in as the rerank stage), the returned chunks list is
sorted in descending order of the rerank score the reranker assigned to the
chunk's text, and its length is at most `final_k`. -/
theorem retrieve_context_sorted_and_truncated
    (vs : String → Nat → Except String (List Document))
    (bm : List Document → String → Nat → Except String (List Document))
    (scorer : String → String → Int) (q : String) (ad : List Document)
    (ik fk : Nat) (ctx : String) (chunks : List (List (String × MetaVal)))
    (h : retrieve_context vs bm
        (fun q docs n => .ok (rerank scorer q docs n).1) q ad ik fk =
      .ok (ctx, chunks)) :
    chunks.length ≤ fk ∧
    List.Sorted (fun a b : List (String × MetaVal) =>
      scorer q (textOf b) ≤ scorer q (textOf a)) chunks := by
  unfold retrieve_context at h
  cases hv : vs q ik with
  | error e => rw [hv] at h; cases h
  | ok vdocs =>
    cases hb : bm ad q ik with
    | error e => rw [hv, hb] at h; cases h
    | ok kdocs =>
      rw [hv, hb] at h
      simp only at h
      cases h
      constructor
      · rw [List.length_map]
        unfold rerank
        simp
      · have hs : List.Sorted scoreGe
            ((assignScores scorer q
              (dedupByContent (vdocs ++ kdocs))).insertionSort scoreGe) :=
          List.sorted_insertionSort scoreGe _
        have hst : List.Sorted scoreGe
            (rerank scorer q (dedupByContent (vdocs ++ kdocs)) fk).1 :=
          List.Pairwise.sublist (List.take_sublist _ _) hs
        rw [List.Sorted, List.pairwise_map]
        refine List.Pairwise.imp_of_mem ?_ hst
        intro a b ha hb hab
        rw [textOf_serializeChunk, textOf_serializeChunk]
        rw [← rerankScoreOf_assignScores scorer q _ a
            (mem_of_mem_rerank_fst scorer q _ fk a ha),
          ← rerankScoreOf_assignScores scorer q _ b
            (mem_of_mem_rerank_fst scorer q _ fk b hb)]
        exact hab

/-- C5 witness: a concrete successful retrieval returning one chunk. -/
theorem retrieve_context_sorted_and_truncated_witness :
    ([[("text", MetaVal.str "a"), ("source", MetaVal.str "N/A")]] :
        List (List (String × MetaVal))).length ≤ 3 ∧
    List.Sorted (fun a b : List (String × MetaVal) =>
        (fun _ _ => (0 : Int)) "" (textOf b) ≤
          (fun _ _ => (0 : Int)) "" (textOf a))
      [[("text", MetaVal.str "a"), ("source", MetaVal.str "N/A")]] :=
  retrieve_context_sorted_and_truncated
    (fun _ _ => .ok [⟨"a", []⟩]) (fun _ _ _ => .ok [])
    (fun _ _ => (0 : Int)) "" [] 1 3 "Source: N/A\nContent: a"
    [[("text", MetaVal.str "a"), ("source", MetaVal.str "N/A")]] rfl

/-! ### Claim C9 — serialized chunks have exactly the keys "text"/"source" -/

/-- C9: every element of `serialized_chunks` returned by a successful
`retrieve_context` call is a dict with exactly the two keys "text" and
"source" (in particular no "id" key), so for every retrieval returning at
least one chunk, the `chunk["id"]` extraction in `main.generate_answer`
raises a `KeyError`. -/
theorem serialized_chunks_keys_and_keyerror
    (vs : String → Nat → Except String (List Document))
    (bm : List Document → String → Nat → Except String (List Document))
    (rr : String → List Document → Nat → Except String (List Document))
    (q : String) (ad : List Document) (ik fk : Nat) (ctx : String)
    (chunks : List (List (String × MetaVal)))
    (h : retrieve_context vs bm rr q ad ik fk = .ok (ctx, chunks)) :
    (∀ ch ∈ chunks, ch.map Prod.fst = ["text", "source"] ∧
      dictFind ch "id" = none) ∧
    (chunks ≠ [] → extract_chunk_ids chunks = .error "KeyError: id") := by
  unfold retrieve_context at h
  cases hv : vs q ik with
  | error e => rw [hv] at h; cases h
  | ok vdocs =>
    cases hb : bm ad q ik with
    | error e => rw [hv, hb] at h; cases h
    | ok kdocs =>
      rw [hv, hb] at h
      simp only at h
      cases hr : rr q (dedupByContent (vdocs ++ kdocs)) fk with
      | error e => rw [hr] at h; cases h
      | ok reranked =>
        rw [hr] at h
        simp only at h
        cases h
        constructor
        · intro ch hch
          rcases List.mem_map.mp hch with ⟨d, _, hd⟩
          subst hd
          exact ⟨map_fst_serializeChunk d, dictFind_serializeChunk_id d⟩
        · intro hne
          cases reranked with
          | nil => simp at hne
          | cons d rest =>
            simp only [List.map_cons]
            unfold extract_chunk_ids
            rw [List.mapM_cons, dictFind_serializeChunk_id]
            rfl

/-- C9 witness: a concrete retrieval returning one chunk, whose id
extraction fails with a KeyError. -/
theorem serialized_chunks_keys_and_keyerror_witness :
    (∀ ch ∈ ([[("text", MetaVal.str "a"), ("source", MetaVal.str "N/A")]] :
        List (List (String × MetaVal))),
      ch.map Prod.fst = ["text", "source"] ∧ dictFind ch "id" = none) ∧
    (([[("text", MetaVal.str "a"), ("source", MetaVal.str "N/A")]] :
        List (List (String × MetaVal))) ≠ [] →
      extract_chunk_ids
          [[("text", MetaVal.str "a"), ("source", MetaVal.str "N/A")]] =
        .error "KeyError: id") :=
  serialized_chunks_keys_and_keyerror
    (fun _ _ => .ok [⟨"a", []⟩]) (fun _ _ _ => .ok [])
    (fun _ docs _ => .ok docs) "" [] 1 3 "Source: N/A\nContent: a"
    [[("text", MetaVal.str "a"), ("source", MetaVal.str "N/A")]] rfl

/-! ### Claim C10 — rerank mutates every input document's metadata -/

/-- C10: `Reranker.rerank` writes a "rerank_score" entry into the metadata
of EVERY document of its input list — including documents that are not
among the `top_n` returned — so caller-held document objects are modified
as a side effect of retrieval. -/
theorem rerank_mutates_all_documents (scorer : String → String → Int)
    (q : String) (documents : List Document) (top_n : Nat) :
    ((rerank scorer q documents top_n).2).length = documents.length ∧
    ∀ (i : Nat) (d : Document), documents[i]? = some d →
      ∃ d2 : Document, ((rerank scorer q documents top_n).2)[i]? = some d2 ∧
        d2.page_content = d.page_content ∧
        dictFind d2.metadata "rerank_score" =
          some (MetaVal.num (scorer q d.page_content)) := by
  constructor
  · unfold rerank assignScores
    simp
  · intro i d h
    refine ⟨{ d with metadata := dictSet d.metadata "rerank_score" (MetaVal.num (scorer q d.page_content)) },
      ?_, rfl, ?_⟩
    · unfold rerank assignScores
      simp [h]
    · rw [dictFind_dictSet]
      simp

/-- C10 witness: with `top_n = 1` and two documents, the second document —
not among the returned top 1 — still gets a "rerank_score" metadata entry. -/
theorem rerank_mutates_all_documents_witness :
    ((rerank (fun _ _ => (5 : Int)) "q" [⟨"a", []⟩, ⟨"b", []⟩] 1).2).length =
      2 ∧
    ∃ d2, ((rerank (fun _ _ => (5 : Int)) "q"
        [⟨"a", []⟩, ⟨"b", []⟩] 1).2)[1]? = some d2 ∧
      d2.page_content = "b" ∧
      dictFind d2.metadata "rerank_score" = some (MetaVal.num 5) :=
  ⟨(rerank_mutates_all_documents (fun _ _ => (5 : Int)) "q"
      [⟨"a", []⟩, ⟨"b", []⟩] 1).1,
   (rerank_mutates_all_documents (fun _ _ => (5 : Int)) "q"
      [⟨"a", []⟩, ⟨"b", []⟩] 1).2 1 ⟨"b", []⟩ rfl⟩

/-! ### VectorStoreManager (`rag/app/core/vector_store_manager.py`) -/

/-- The state `VectorStoreManager` operates on: whether the ChromaDB
persist directory exists, whether the named collection exists inside it,
the ids stored in that collection, and whether the manager's in-memory
`self.vector_store` handle is set. -/
structure StoreState : Type where
  pathExists : Bool
  collectionExists : Bool
  collectionIds : List String
  handlePresent : Bool
deriving DecidableEq, Repr

/-- Failure injection for the external operations: `Chroma(...)`
instantiation inside the force-rebuild block (line 106), loading in the
load branch (lines 122–128), the store-level `delete_collection`
(line 71), and `shutil.rmtree` (line 48). -/
structure FailureEnv : Type where
  instantiateFails : Bool
  loadFails : Bool
  deleteFails : Bool
  rmtreeFails : Bool
deriving DecidableEq, Repr

/-- The `VectorStoreError` raised on critical vector store failures. -/
structure VectorStoreError : Type where
  msg : String
deriving DecidableEq, Repr

/-- `VectorStoreManager._cleanup_directory` (lines 38–57): if the
directory exists, drop the handle and remove the whole directory with
`rmtree`; an `OSError` from `rmtree` is escalated as `VectorStoreError`.
If the directory does not exist the method does nothing. -/
def cleanup_directory (env : FailureEnv) (s : StoreState) :
    Except VectorStoreError StoreState :=
  if s.pathExists then
    if env.rmtreeFails then
      .error ⟨"CRITICAL ERROR: Failed to remove ChromaDB directory"⟩
    else
      .ok { pathExists := false, collectionExists := false, collectionIds := [], handlePresent := false }
  else
    .ok s

/-- Result of `_clear_existing_collection` together with a trace of which
deletion mechanism was actually attempted: `storeDeleteTried` records that
the store-level `get_collection`/`delete_collection` path ran, and
`dirRemovalTried` records that `rmtree` was actually invoked on an
existing directory. -/
structure ClearOutcome : Type where
  result : Except VectorStoreError StoreState
  storeDeleteTried : Bool
  dirRemovalTried : Bool
deriving Repr

/-- `VectorStoreManager._clear_existing_collection` (lines 59–91).
With a handle present, the store-level path runs: `get_collection` then
`delete_collection`; a "not found" from `get_collection` is caught and
logged as "No clear needed" (lines 73–76); any other store-level failure
falls back to `_cleanup_directory` (lines 83–88).  Without a handle, if
the directory exists the code forces `_cleanup_directory` directly
(lines 89–91); otherwise the method does nothing. -/
def clear_existing_collection (env : FailureEnv) (s : StoreState) :
    ClearOutcome :=
  if s.handlePresent then
    if s.collectionExists then
      if env.deleteFails then
        { result := cleanup_directory env s,
          storeDeleteTried := true,
          dirRemovalTried := s.pathExists }
      else
        { result := .ok { s with collectionExists := false, collectionIds := [], handlePresent := false },
          storeDeleteTried := true, dirRemovalTried := false }
    else
      { result := .ok { s with handlePresent := false },
        storeDeleteTried := true, dirRemovalTried := false }
  else if s.pathExists then
    { result := cleanup_directory env s, storeDeleteTried := false,
      dirRemovalTried := true }
  else
    { result := .ok s, storeDeleteTried := false, dirRemovalTried := false }

/-- Lines 104–113 of `load_or_create_vector_store`: when forcing a
rebuild with no handle set but an existing directory, instantiate a
temporary `Chroma` object so `_clear_existing_collection` can work.
`Chroma(...)` with a persist directory performs `get_or_create_collection`,
so a missing collection is created empty; an instantiation failure is
logged and execution continues with no handle. -/
def instantiate_for_clear (env : FailureEnv) (s : StoreState) : StoreState :=
  if !s.handlePresent && s.pathExists then
    if env.instantiateFails then s
    else { s with handlePresent := true, collectionExists := true, collectionIds := if s.collectionExists then s.collectionIds else [] }
  else s

/-- The "Create New Index (Rebuild)" block of `load_or_create_vector_store`
(lines 143–166): with chunks to index, `Chroma.from_documents` performs
`get_or_create_collection` and adds the chunks to the named collection;
with no chunks, an empty store object is instantiated if no handle is set.
Returns the ids of the returned collection together with the new state. -/
def create_new_index (s : StoreState) (documents_to_index : List String) :
    List String × StoreState :=
  if documents_to_index.isEmpty then
    if s.handlePresent then (s.collectionIds, s)
    else
      let ids := if s.collectionExists then s.collectionIds else []
      (ids, { pathExists := true, collectionExists := true, collectionIds := ids, handlePresent := true })
  else
    let ids := (if s.collectionExists then s.collectionIds else []) ++ documents_to_index
    (ids, { pathExists := true, collectionExists := true, collectionIds := ids, handlePresent := true })

/-- `VectorStoreManager.load_or_create_vector_store` (lines 94–166).
Returns the ids of the returned collection and the final state, or the
escalated `VectorStoreError`.  The structure mirrors the three blocks of
the method: Handle Force Rebuild (lines 102–116), Attempt to Load Existing
(lines 119–141, entered only when `force_rebuild` is false), and Create
New Index (lines 143–166).  When the load attempt fails or finds an empty
collection, the code falls through to the create block (lines 134–141). -/
def load_or_create_vector_store (env : FailureEnv) (s : StoreState)
    (documents_to_index : List String) (force_rebuild : Bool) :
    Except VectorStoreError (List String × StoreState) :=
  let pre : Except VectorStoreError StoreState :=
    if force_rebuild then
      (clear_existing_collection env (instantiate_for_clear env s)).result
    else .ok s
  match pre with
  | .error e => .error e
  | .ok s2 =>
    if !force_rebuild && s2.pathExists then
      if env.loadFails then
        .ok (create_new_index { s2 with handlePresent := false }
          documents_to_index)
      else
        let sL := { s2 with collectionExists := true, collectionIds := if s2.collectionExists then s2.collectionIds else [] }
        if sL.collectionIds.isEmpty then
          .ok (create_new_index { sL with handlePresent := false }
            documents_to_index)
        else
          .ok (sL.collectionIds, { sL with handlePresent := true })
    else
      .ok (create_new_index s2 documents_to_index)

/-- Reachable-state invariant: a collection only exists inside an existing
persist directory. -/
def WfState (s : StoreState) : Prop :=
  s.collectionExists = true → s.pathExists = true

/-! ### Claim C2 — load-or-rebuild decision with force_rebuild = false -/

/-- C2: with `force_rebuild = false`, if a persisted collection exists and
is non-empty and loading succeeds, it is loaded and returned unchanged
(nothing cleared, nothing indexed, only the in-memory handle set); if
loading fails or the loaded collection is empty, the call proceeds to the
create-new-index (rebuild) block instead. -/
theorem load_or_create_not_forced (env : FailureEnv) (s : StoreState)
    (docs : List String) :
    (s.pathExists = true → env.loadFails = false → s.collectionExists = true →
      s.collectionIds ≠ [] →
      load_or_create_vector_store env s docs false =
        .ok (s.collectionIds, { s with handlePresent := true })) ∧
    (s.pathExists = true →
      (env.loadFails = true ∨ s.collectionExists = false ∨
        s.collectionIds = []) →
      ∃ s2 : StoreState, s2.handlePresent = false ∧
        load_or_create_vector_store env s docs false =
          .ok (create_new_index s2 docs)) := by
  rcases s with ⟨pe, ce, ids, hh⟩
  constructor
  · intro hpe hl hce hids
    subst hpe
    subst hce
    simp only at hids
    simp [load_or_create_vector_store, hl, hids]
  · intro hpe hcase
    subst hpe
    rcases hcase with hl | hce | hids
    · exact ⟨⟨true, ce, ids, false⟩, rfl,
        by simp [load_or_create_vector_store, hl]⟩
    · simp only at hce
      subst hce
      cases hl : env.loadFails with
      | true => exact ⟨⟨true, false, ids, false⟩, rfl,
          by simp [load_or_create_vector_store, hl]⟩
      | false => exact ⟨⟨true, true, [], false⟩, rfl,
          by simp [load_or_create_vector_store, hl]⟩
    · simp only at hids
      subst hids
      cases hl : env.loadFails with
      | true => exact ⟨⟨true, ce, [], false⟩, rfl,
          by simp [load_or_create_vector_store, hl]⟩
      | false => exact ⟨⟨true, true, [], false⟩, rfl,
          by simp [load_or_create_vector_store, hl]⟩

/-- C2 witness: a non-empty persisted collection is returned as is; an
empty one sends the call to the rebuild block. -/
theorem load_or_create_not_forced_witness :
    (load_or_create_vector_store ⟨false, false, false, false⟩
        ⟨true, true, ["i1", "i2"], false⟩ ["d1"] false =
      .ok (["i1", "i2"], ⟨true, true, ["i1", "i2"], true⟩)) ∧
    (∃ s2 : StoreState, s2.handlePresent = false ∧
      load_or_create_vector_store ⟨false, false, false, false⟩
          ⟨true, true, [], false⟩ ["d1"] false =
        .ok (create_new_index s2 ["d1"])) :=
  ⟨(load_or_create_not_forced ⟨false, false, false, false⟩
      ⟨true, true, ["i1", "i2"], false⟩ ["d1"]).1 rfl rfl rfl (by decide),
   (load_or_create_not_forced ⟨false, false, false, false⟩
      ⟨true, true, [], false⟩ ["d1"]).2 rfl (Or.inr (Or.inr rfl))⟩

/-! ### Claim C3 — escalation order of the clearing mechanisms -/

/-- C3: during a forced rebuild (handle present), clearing first attempts
the store-level delete-by-name, directory removal is attempted only when
the store-level delete fails, and a failure of the directory removal
itself surfaces as a `VectorStoreError` to the caller instead of being
retried or treated as success. -/
theorem clear_escalation (env : FailureEnv) (s : StoreState)
    (hp : s.pathExists = true) :
    (s.handlePresent = true →
      (clear_existing_collection env s).storeDeleteTried = true ∧
      ((clear_existing_collection env s).dirRemovalTried = true →
        env.deleteFails = true)) ∧
    ((clear_existing_collection env s).dirRemovalTried = true →
      env.rmtreeFails = true →
      (clear_existing_collection env s).result =
        .error ⟨"CRITICAL ERROR: Failed to remove ChromaDB directory"⟩) := by
  rcases s with ⟨pe, ce, ids, hh⟩
  rcases env with ⟨fi, fl, fd, fr⟩
  simp only at hp
  subst hp
  cases ce <;> cases hh <;> cases fd <;> cases fr <;>
    simp [clear_existing_collection, cleanup_directory]

/-- C3 witness: with a failing store-level delete and a failing directory
removal, the store-level delete was tried and a `VectorStoreError`
escapes. -/
theorem clear_escalation_witness :
    ((clear_existing_collection ⟨false, false, true, true⟩
        ⟨true, true, ["i"], true⟩).storeDeleteTried = true) ∧
    ((clear_existing_collection ⟨false, false, true, true⟩
        ⟨true, true, ["i"], true⟩).result =
      .error ⟨"CRITICAL ERROR: Failed to remove ChromaDB directory"⟩) :=
  ⟨((clear_escalation ⟨false, false, true, true⟩
      ⟨true, true, ["i"], true⟩ rfl).1 rfl).1,
   (clear_escalation ⟨false, false, true, true⟩
      ⟨true, true, ["i"], true⟩ rfl).2 rfl rfl⟩

/-! ### Claim C7 — forced rebuild is idempotent in chunk count -/

theorem wf_instantiate_for_clear (env : FailureEnv) (s : StoreState)
    (h : WfState s) : WfState (instantiate_for_clear env s) := by
  rcases s with ⟨pe, ce, ids, hh⟩
  cases pe <;> cases hh <;> cases hi : env.instantiateFails <;>
    simp_all [instantiate_for_clear, WfState]

theorem clear_ok_state (env : FailureEnv) (s : StoreState)
    (hwf : WfState s) :
    ∀ s2, (clear_existing_collection env s).result = .ok s2 →
      s2.collectionExists = false ∧ s2.handlePresent = false := by
  rcases s with ⟨pe, ce, ids, hh⟩
  intro s2 h
  cases pe <;> cases ce <;> cases hh <;>
    cases hd : env.deleteFails <;> cases hr : env.rmtreeFails <;>
      simp_all [clear_existing_collection, cleanup_directory, WfState] <;>
        (try cases h) <;> simp_all

theorem load_or_create_forced (env : FailureEnv) (s : StoreState)
    (docs : List String) :
    load_or_create_vector_store env s docs true =
      match (clear_existing_collection env
          (instantiate_for_clear env s)).result with
      | .error e => .error e
      | .ok s2 => .ok (create_new_index s2 docs) := by
  unfold load_or_create_vector_store
  cases (clear_existing_collection env (instantiate_for_clear env s)).result
    with
  | error e => rfl
  | ok s2 => rfl

theorem rebuild_ids (env : FailureEnv) (s : StoreState) (docs : List String)
    (hwf : WfState s) :
    ∀ ids s2, load_or_create_vector_store env s docs true = .ok (ids, s2) →
      ids = docs ∧ WfState s2 := by
  intro ids s2 h
  rw [load_or_create_forced] at h
  cases hpre : (clear_existing_collection env
      (instantiate_for_clear env s)).result with
  | error e => rw [hpre] at h; cases h
  | ok s3 =>
    rw [hpre] at h
    simp only at h
    obtain ⟨hce, hhp⟩ := clear_ok_state env (instantiate_for_clear env s)
      (wf_instantiate_for_clear env s hwf) s3 hpre
    injection h with h2
    cases hde : docs.isEmpty with
    | true =>
      have hdocs : docs = [] := List.isEmpty_iff.mp hde
      subst hdocs
      simp [create_new_index, hce, hhp] at h2
      refine ⟨h2.1, ?_⟩
      rw [← h2.2]
      intro _
      rfl
    | false =>
      simp [create_new_index, hce, hhp, hde] at h2
      refine ⟨h2.1.symm, ?_⟩
      rw [← h2.2]
      intro _
      rfl

/-- C7: invoking the rebuild operation (`load_or_create_vector_store` with
`force_rebuild = true`, fed by the same chunking pipeline output, which is
deterministic for an unchanged content root) twice in sequence yields a
collection with the same chunk count both times. -/
theorem forced_rebuild_idempotent_count (env1 env2 : FailureEnv)
    (s : StoreState) (docs : List String) (hwf : WfState s)
    (ids1 : List String) (s1 : StoreState) (ids2 : List String)
    (s2 : StoreState)
    (h1 : load_or_create_vector_store env1 s docs true = .ok (ids1, s1))
    (h2 : load_or_create_vector_store env2 s1 docs true = .ok (ids2, s2)) :
    ids1.length = ids2.length := by
  have r1 := rebuild_ids env1 s docs hwf ids1 s1 h1
  have r2 := rebuild_ids env2 s1 docs r1.2 ids2 s2 h2
  rw [r1.1, r2.1]

/-- C7 witness: two consecutive forced rebuilds from a concrete state give
3-chunk collections both times. -/
theorem forced_rebuild_idempotent_count_witness :
    (["d1", "d2", "d3"] : List String).length =
      (["d1", "d2", "d3"] : List String).length :=
  forced_rebuild_idempotent_count ⟨false, false, false, false⟩
    ⟨false, false, false, false⟩ ⟨true, true, ["i1"], false⟩
    ["d1", "d2", "d3"] (fun _ => rfl) ["d1", "d2", "d3"]
    ⟨true, true, ["d1", "d2", "d3"], true⟩ ["d1", "d2", "d3"]
    ⟨true, true, ["d1", "d2", "d3"], true⟩ rfl rfl

/-! ### Claim C8 — clearing a non-existent collection -/

/-- C8 counterexample: with no in-memory handle but an existing store
directory — a configuration `_clear_existing_collection` explicitly
handles (lines 89–91) — clearing when the named collection does not exist
is NOT a no-op: the whole directory is removed, and if that removal fails
the call raises `VectorStoreError` instead of returning without error. -/
theorem clear_missing_collection_counterexample :
    ((clear_existing_collection ⟨false, false, false, false⟩
        ⟨true, false, [], false⟩).result =
      .ok ⟨false, false, [], false⟩) ∧
    ((⟨false, false, [], false⟩ : StoreState) ≠
      (⟨true, false, [], false⟩ : StoreState)) ∧
    ((clear_existing_collection ⟨false, false, false, true⟩
        ⟨true, false, [], false⟩).result =
      .error ⟨"CRITICAL ERROR: Failed to remove ChromaDB directory"⟩) :=
  ⟨rfl, by decide, rfl⟩

/-- C8 (amended): when the manager's vector-store handle is present (the
configuration the spec scenario describes) and the named collection does
not exist, the clear operation is a no-op on the persisted store — only
the stale in-memory handle is dropped — and returns without error, for
every collection state and failure environment; when the handle is absent
and the store directory exists, the code instead removes the whole
directory, and that removal's failure raises `VectorStoreError`. -/
theorem clear_missing_collection_noop (env : FailureEnv) (s : StoreState)
    (hh : s.handlePresent = true) (hc : s.collectionExists = false) :
    (clear_existing_collection env s).result =
      .ok { s with handlePresent := false } ∧
    (clear_existing_collection env s).dirRemovalTried = false := by
  rcases s with ⟨pe, ce, ids, hp⟩
  simp only at hh hc
  subst hh
  subst hc
  simp [clear_existing_collection]

/-- C8 witness: with every external failure injected, clearing a missing
collection through a present handle still returns without error and never
touches the directory. -/
theorem clear_missing_collection_noop_witness :
    ((clear_existing_collection ⟨true, true, true, true⟩
        ⟨true, false, [], true⟩).result = .ok ⟨true, false, [], false⟩) ∧
    ((clear_existing_collection ⟨true, true, true, true⟩
        ⟨true, false, [], true⟩).dirRemovalTried = false) :=
  clear_missing_collection_noop ⟨true, true, true, true⟩
    ⟨true, false, [], true⟩ rfl rfl

/-! ### DocumentProcessor.chunk_documents
(`rag/app/core/document_loader.py`, lines 59–69) -/

/-- Fuel-indexed splitting loop; the fuel only bounds the recursion depth
(one unit per emitted chunk suffices, since each step strictly shortens
the text), so `split_text` below always supplies enough. -/
def split_text_go (chunk_size chunk_overlap : Nat) :
    Nat → List Char → List (List Char)
  | 0, _ => []
  | f + 1, text =>
    if text = [] then []
    else if text.length ≤ chunk_size then [text]
    else if chunk_size ≤ chunk_overlap then [text]
    else
      text.take chunk_size ::
        split_text_go chunk_size chunk_overlap f
          (text.drop (chunk_size - chunk_overlap))

/-- Modelled from the spec: the character splitter invoked by
`DocumentProcessor.chunk_documents` is `RecursiveCharacterTextSplitter`
from the langchain library, which is not part of this repository.  The
spec (§3) defines chunking as deterministic fixed-size, overlapping
character splitting with parameters `chunk_size` and `chunk_overlap`
measured in characters, where chunks from the same document overlap by
`chunk_overlap` characters and only the last chunk of a document may be
shorter than `chunk_size`; the configuration constraint
`0 ≤ chunk_overlap < chunk_size` is enforced at construction (§4.1). -/
def split_text (chunk_size chunk_overlap : Nat) (text : List Char) :
    List (List Char) :=
  split_text_go chunk_size chunk_overlap text.length text

/-- `DocumentProcessor.chunk_documents` (lines 59–69): split every loaded
document into chunks, each chunk keeping its source document's metadata. -/
def chunk_documents (chunk_size chunk_overlap : Nat)
    (documents : List Document) : List Document :=
  documents.flatMap (fun d =>
    (split_text chunk_size chunk_overlap d.page_content.toList).map
      (fun t => { d with page_content := String.mk t }))

/-- The fuel is irrelevant as long as it is adequate (at least the text
length when positive): with adequate fuel the loop unfolds identically. -/
theorem split_text_go_fuel (c o : Nat) :
    ∀ (f1 f2 : Nat) (text : List Char), text.length ≤ f1 →
      text.length ≤ f2 →
      split_text_go c o f1 text = split_text_go c o f2 text := by
  intro f1
  induction f1 with
  | zero =>
    intro f2 text h1 h2
    have htext : text = [] := List.eq_nil_of_length_eq_zero (by omega)
    subst htext
    cases f2 <;> simp [split_text_go]
  | succ n ih =>
    intro f2 text h1 h2
    cases f2 with
    | zero =>
      have htext : text = [] := List.eq_nil_of_length_eq_zero (by omega)
      subst htext
      simp [split_text_go]
    | succ m =>
      by_cases h0 : text = []
      · subst h0
        simp [split_text_go]
      · by_cases hc1 : text.length ≤ c
        · simp [split_text_go, h0, hc1]
        · by_cases hc2 : c ≤ o
          · simp [split_text_go, h0, hc1, hc2]
          · simp only [split_text_go, if_neg h0, if_neg hc1, if_neg hc2]
            congr 1
            exact ih m (text.drop (c - o))
              (by simp only [List.length_drop]; omega)
              (by simp only [List.length_drop]; omega)

theorem split_text_head (c o : Nat) (ho : o < c) (text : List Char)
    (hne : text ≠ []) :
    ∃ rest, split_text c o text = text.take c :: rest := by
  unfold split_text
  have hlen : 0 < text.length := List.length_pos.mpr hne
  cases hf : text.length with
  | zero => omega
  | succ m =>
    rw [split_text_go, if_neg hne]
    by_cases h1 : text.length ≤ c
    · rw [if_pos h1, List.take_of_length_le h1]
      exact ⟨[], rfl⟩
    · rw [if_neg h1, if_neg (by omega : ¬c ≤ o)]
      exact ⟨_, rfl⟩

theorem split_text_go_spec (c o : Nat) (ho : o < c) :
    ∀ (fuel : Nat) (text : List Char), text.length ≤ fuel →
      ∀ (i : Nat) (A B : List Char),
        (split_text_go c o fuel text)[i]? = some A →
        (split_text_go c o fuel text)[i + 1]? = some B →
        A.length = c ∧ A.drop (c - o) = B.take o ∧
          (A.drop (c - o)).length = o := by
  intro fuel
  induction fuel with
  | zero =>
    intro text hlen i A B hA hB
    rw [split_text_go] at hA
    simp at hA
  | succ n ih =>
    intro text hlen i A B hA hB
    by_cases h0 : text = []
    · subst h0
      rw [split_text_go, if_pos rfl] at hA
      simp at hA
    · by_cases h1 : text.length ≤ c
      · rw [split_text_go, if_neg h0, if_pos h1] at hB
        have hb := (List.getElem?_eq_some.mp hB).1
        simp at hb
      · have hco : ¬c ≤ o := by omega
        rw [split_text_go, if_neg h0, if_neg h1, if_neg hco] at hA hB
        have hfuel2 : (text.drop (c - o)).length ≤ n := by
          simp only [List.length_drop]
          omega
        cases i with
        | zero =>
          have hA2 : text.take c = A := by
            simpa using hA
          have hne2 : text.drop (c - o) ≠ [] := by
            intro hcon
            have := congrArg List.length hcon
            simp [List.length_drop] at this
            omega
          have hB1 : (split_text_go c o n
              (text.drop (c - o)))[0]? = some B := by
            simpa using hB
          rw [split_text_go_fuel c o n
            ((text.drop (c - o)).length) (text.drop (c - o))
            hfuel2 (le_refl _)] at hB1
          rcases split_text_head c o ho (text.drop (c - o)) hne2 with
            ⟨rest, hr⟩
          rw [split_text] at hr
          rw [hr] at hB1
          have hB2 : (text.drop (c - o)).take c = B := by
            simpa using hB1
          subst hA2
          subst hB2
          have hlen1 : (text.take c).length = c := by
            rw [List.length_take]
            omega
          refine ⟨hlen1, ?_, ?_⟩
          · rw [List.drop_take c (c - o) text, List.take_take]
            have hmin : min o c = o := Nat.min_eq_left (le_of_lt ho)
            have hsub : c - (c - o) = o := by omega
            rw [hsub, hmin]
          · rw [List.drop_take c (c - o) text]
            have hsub : c - (c - o) = o := by omega
            rw [hsub, List.length_take, List.length_drop]
            omega
        | succ j =>
          have hA2 : (split_text_go c o n
              (text.drop (c - o)))[j]? = some A := by
            simpa using hA
          have hB2 : (split_text_go c o n
              (text.drop (c - o)))[j + 1]? = some B := by
            simpa using hB
          exact ih (text.drop (c - o)) hfuel2 j A B hA2 hB2

/-- C6: for fixed parameters with `chunk_overlap < chunk_size`, any two
consecutive chunks produced from one document by
`DocumentProcessor.chunk_documents` overlap by exactly `chunk_overlap`
characters (the dropped suffix of the earlier chunk is exactly the
`chunk_overlap`-character prefix of the later one), and every chunk other
than a document's last has length exactly `chunk_size` — only the last
chunk of a document may be shorter. -/
theorem chunk_documents_overlap_invariant (chunk_size chunk_overlap : Nat)
    (ho : chunk_overlap < chunk_size) (d : Document) (i : Nat)
    (A B : Document)
    (hA : (chunk_documents chunk_size chunk_overlap [d])[i]? = some A)
    (hB : (chunk_documents chunk_size chunk_overlap [d])[i + 1]? = some B) :
    A.page_content.length = chunk_size ∧
    A.page_content.toList.drop (chunk_size - chunk_overlap) =
      B.page_content.toList.take chunk_overlap ∧
    (A.page_content.toList.drop (chunk_size - chunk_overlap)).length =
      chunk_overlap := by
  have hsimp : chunk_documents chunk_size chunk_overlap [d] =
      (split_text chunk_size chunk_overlap d.page_content.toList).map
        (fun t => { d with page_content := String.mk t }) := by
    simp [chunk_documents]
  rw [hsimp, List.getElem?_map] at hA hB
  cases hA0 : (split_text chunk_size chunk_overlap
      d.page_content.toList)[i]? with
  | none => rw [hA0] at hA; cases hA
  | some tA =>
    cases hB0 : (split_text chunk_size chunk_overlap
        d.page_content.toList)[i + 1]? with
    | none => rw [hB0] at hB; cases hB
    | some tB =>
      rw [hA0] at hA
      rw [hB0] at hB
      obtain ⟨h1, h2, h3⟩ := split_text_go_spec chunk_size chunk_overlap ho
        d.page_content.toList.length d.page_content.toList (le_refl _)
        i tA tB hA0 hB0
      cases hA
      cases hB
      exact ⟨h1, h2, h3⟩

/-- C6 witness: a six-character document with `chunk_size = 4` and
`chunk_overlap = 2` yields two chunks overlapping in exactly two
characters. -/
theorem chunk_documents_overlap_invariant_witness :
    (Document.mk (String.mk ['a', 'b', 'c', 'd']) []).page_content.length =
        4 ∧
    (Document.mk (String.mk ['a', 'b', 'c', 'd'])
          []).page_content.toList.drop 2 =
      (Document.mk (String.mk ['c', 'd', 'e', 'f'])
          []).page_content.toList.take 2 ∧
    ((Document.mk (String.mk ['a', 'b', 'c', 'd'])
          []).page_content.toList.drop 2).length = 2 :=
  chunk_documents_overlap_invariant 4 2 (by omega)
    (Document.mk (String.mk ['a', 'b', 'c', 'd', 'e', 'f']) []) 0
    (Document.mk (String.mk ['a', 'b', 'c', 'd']) [])
    (Document.mk (String.mk ['c', 'd', 'e', 'f']) []) (by decide) (by decide)



end PolicyRag
